import Mathlib

/-!
Verification development for the Claude→Gemini protocol-translation gateway
(source: src/proxy.js).  JSON values are modelled as a nested inductive type;
JavaScript objects are association lists in insertion order (JSON request
bodies never carry duplicate keys).  Numbers are modelled as integers: none of
the verified routines performs non-integral arithmetic.
-/

namespace Proxy

/-- A JSON value, as produced by JSON.parse: null, booleans, numbers,
strings, arrays, and objects (key/value lists in insertion order). -/
inductive Json where
  | null
  | bool (b : Bool)
  | num (n : Int)
  | str (s : String)
  | arr (elems : List Json)
  | obj (entries : List (String × Json))

/-- JavaScript truthiness of a JSON value (NaN does not arise here). -/
def Json.truthy : Json → Bool
  | .null => false
  | .bool b => b
  | .num n => n != 0
  | .str s => s != ""
  | .arr _ => true
  | .obj _ => true

/-- JavaScript typeof x === "object" together with x !== null, i.e. the values
the sanitiser recurses into (arrays included). -/
def Json.isObjLike : Json → Bool
  | .arr _ => true
  | .obj _ => true
  | _ => false

/-- Object.keys semantics: own enumerable keys of an object, indices of an
array or a string, nothing for primitives. -/
def jsKeys : Json → List String
  | .obj es => es.map (fun e => e.1)
  | .arr xs => (List.range xs.length).map (fun i => toString i)
  | .str s => (List.range s.length).map (fun i => toString i)
  | _ => []

/-- The unsupported JSON-Schema fields stripped by cleanJsonSchema
(src/proxy.js, the unsupportedFields list), in source order. -/
def unsupportedFields : List String :=
  ["additionalProperties", "$schema", "$id", "$ref", "definitions",
   "title", "examples", "default",
   "readOnly", "writeOnly",
   "exclusiveMinimum", "exclusiveMaximum", "minimum", "maximum", "multipleOf",
   "pattern", "format", "minLength", "maxLength",
   "minItems", "maxItems", "uniqueItems",
   "minProperties", "maxProperties", "patternProperties", "dependencies",
   "contentMediaType", "contentEncoding",
   "const", "allOf", "anyOf", "oneOf", "not"]

/-- The element filter used on the required array:
validProperties.includes(prop) with strict equality, so only string elements
equal to a surviving property key pass. -/
def requiredElemOk (valid : List String) : Json → Bool
  | .str s => valid.contains s
  | _ => false

/-- The required/properties repair performed by cleanJsonSchema after the
field loop: when the cleaned object has an array-valued required and a truthy
properties, required is restricted to Object.keys(properties) and deleted when
the restriction is empty. -/
def requiredFix (es : List (String × Json)) : List (String × Json) :=
  match List.lookup "required" es, List.lookup "properties" es with
  | some (.arr r), some p =>
      if p.truthy then
        let valid := jsKeys p
        let r2 := r.filter (requiredElemOk valid)
        if r2.isEmpty then es.filter (fun e => e.1 != "required")
        else es.map (fun e => if e.1 = "required" then (e.1, Json.arr r2) else e)
      else es
  | _, _ => es

mutual

/-- cleanJsonSchema from src/proxy.js (lines 818-934): primitives are returned
unchanged, arrays are mapped elementwise, objects drop every unsupported key,
recurse into object/array values, and finally repair the required array. -/
def cleanJsonSchema : Json → Json
  | .null => .null
  | .bool b => .bool b
  | .num n => .num n
  | .str s => .str s
  | .arr xs => .arr (cleanJsonSchemaList xs)
  | .obj es => .obj (requiredFix (cleanJsonSchemaEntries es))

/-- Elementwise sanitisation of an array (schema.map(item => cleanJsonSchema(item))). -/
def cleanJsonSchemaList : List Json → List Json
  | [] => []
  | x :: xs => cleanJsonSchema x :: cleanJsonSchemaList xs

/-- The field loop of cleanJsonSchema: unsupported keys are skipped, object or
array values are sanitised recursively, other values are copied. -/
def cleanJsonSchemaEntries : List (String × Json) → List (String × Json)
  | [] => []
  | (k, v) :: es =>
      if k ∈ unsupportedFields then cleanJsonSchemaEntries es
      else (k, if v.isObjLike then cleanJsonSchema v else v) :: cleanJsonSchemaEntries es

end

mutual

/-- The deep check performed by validateCleanedSchema: no unsupported field
occurs as an object key at any depth. -/
def noUnsupported : Json → Bool
  | .arr xs => noUnsupportedList xs
  | .obj es => noUnsupportedEntries es
  | _ => true

/-- noUnsupported on every array element. -/
def noUnsupportedList : List Json → Bool
  | [] => true
  | x :: xs => noUnsupported x && noUnsupportedList xs

/-- noUnsupported on every object entry: the key is not an unsupported field
and the value is recursively clear of them. -/
def noUnsupportedEntries : List (String × Json) → Bool
  | [] => true
  | (k, v) :: es => decide (k ∉ unsupportedFields) && noUnsupported v && noUnsupportedEntries es

end

example :
    cleanJsonSchema (.obj [("type", .str "object"),
      ("properties", .obj [("q", .obj [("type", .str "string"),
        ("pattern", .str "^x$"), ("minLength", .num 1)])]),
      ("required", .arr [.str "q"]),
      ("additionalProperties", .bool false),
      ("$schema", .str "http://x")]) =
    .obj [("type", .str "object"),
      ("properties", .obj [("q", .obj [("type", .str "string")])]),
      ("required", .arr [.str "q"])] := rfl

example :
    cleanJsonSchema (.obj [("required", .arr [.str "a", .str "b"]),
      ("properties", .obj [("a", .obj [])])]) =
    .obj [("required", .arr [.str "a"]), ("properties", .obj [("a", .obj [])])] := rfl

example :
    cleanJsonSchema (.obj [("required", .arr [.str "b"]),
      ("properties", .obj [("a", .obj [])])]) =
    .obj [("properties", .obj [("a", .obj [])])] := rfl

example : cleanJsonSchema (.str "x") = .str "x" := rfl

/-! Helper lemmas about the sanitiser. -/

theorem cleanJsonSchema_of_not_objLike (v : Json) (h : v.isObjLike = false) :
    cleanJsonSchema v = v := by
  cases v <;> first | rfl | simp [Json.isObjLike] at h

theorem ite_objLike_clean (v : Json) :
    (if v.isObjLike then cleanJsonSchema v else v) = cleanJsonSchema v := by
  cases v <;> rfl

theorem isObjLike_clean (v : Json) :
    (cleanJsonSchema v).isObjLike = v.isObjLike := by
  cases v <;> rfl

theorem lookup_mem {es : List (String × Json)} {k : String} {v : Json}
    (h : List.lookup k es = some v) : (k, v) ∈ es := by
  induction es with
  | nil => simp [List.lookup] at h
  | cons e tl ih =>
      obtain ⟨a, b⟩ := e
      rw [List.lookup] at h
      split at h
      · cases h
        have hk : k = a := by
          rename_i heq
          simpa using heq
        subst hk
        exact List.mem_cons_self _ _
      · exact List.mem_cons_of_mem _ (ih h)

theorem noUnsupportedEntries_mem {es : List (String × Json)} {k : String} {v : Json}
    (h : noUnsupportedEntries es = true) (hm : (k, v) ∈ es) :
    k ∉ unsupportedFields ∧ noUnsupported v = true := by
  induction es with
  | nil => simp at hm
  | cons e tl ih =>
      obtain ⟨a, b⟩ := e
      rw [noUnsupportedEntries] at h
      simp only [Bool.and_eq_true, decide_eq_true_eq] at h
      rcases List.mem_cons.mp hm with h1 | h1
      · cases h1; exact ⟨h.1.1, h.1.2⟩
      · exact ih h.2 h1

theorem noUnsupportedList_mem {xs : List Json} {v : Json}
    (h : noUnsupportedList xs = true) (hm : v ∈ xs) : noUnsupported v = true := by
  induction xs with
  | nil => simp at hm
  | cons x tl ih =>
      rw [noUnsupportedList] at h
      simp only [Bool.and_eq_true] at h
      rcases List.mem_cons.mp hm with h1 | h1
      · cases h1; exact h.1
      · exact ih h.2 h1

theorem noUnsupportedList_filter {xs : List Json} (p : Json → Bool)
    (h : noUnsupportedList xs = true) : noUnsupportedList (xs.filter p) = true := by
  induction xs with
  | nil => rfl
  | cons x tl ih =>
      rw [noUnsupportedList] at h
      simp only [Bool.and_eq_true] at h
      rw [List.filter]
      cases p x
      · exact ih h.2
      · rw [noUnsupportedList]
        simp only [Bool.and_eq_true]
        exact ⟨h.1, ih h.2⟩

theorem noUnsupportedEntries_filter {es : List (String × Json)}
    (p : String × Json → Bool)
    (h : noUnsupportedEntries es = true) : noUnsupportedEntries (es.filter p) = true := by
  induction es with
  | nil => rfl
  | cons e tl ih =>
      obtain ⟨a, b⟩ := e
      rw [noUnsupportedEntries] at h
      simp only [Bool.and_eq_true, decide_eq_true_eq] at h
      rw [List.filter]
      cases p (a, b)
      · exact ih h.2
      · rw [noUnsupportedEntries]
        simp only [Bool.and_eq_true, decide_eq_true_eq]
        exact ⟨⟨h.1.1, h.1.2⟩, ih h.2⟩

theorem noUnsupportedEntries_map_required {es : List (String × Json)} {c : Json}
    (hc : noUnsupported c = true) (h : noUnsupportedEntries es = true) :
    noUnsupportedEntries
      (es.map (fun e => if e.1 = "required" then (e.1, c) else e)) = true := by
  induction es with
  | nil => rfl
  | cons e tl ih =>
      obtain ⟨a, b⟩ := e
      rw [noUnsupportedEntries] at h
      simp only [Bool.and_eq_true, decide_eq_true_eq] at h
      rw [List.map]
      by_cases ha : a = "required"
      · rw [if_pos ha, noUnsupportedEntries]
        simp only [Bool.and_eq_true, decide_eq_true_eq]
        exact ⟨⟨h.1.1, hc⟩, ih h.2⟩
      · rw [if_neg ha, noUnsupportedEntries]
        simp only [Bool.and_eq_true, decide_eq_true_eq]
        exact ⟨⟨h.1.1, h.1.2⟩, ih h.2⟩

theorem noUnsupportedEntries_requiredFix {es : List (String × Json)}
    (h : noUnsupportedEntries es = true) :
    noUnsupportedEntries (requiredFix es) = true := by
  rw [requiredFix]
  cases hr : List.lookup "required" es with
  | none => exact h
  | some vr =>
    cases vr with
    | arr r =>
        cases hp : List.lookup "properties" es with
        | none => exact h
        | some p =>
            dsimp only
            by_cases ht : p.truthy
            · rw [if_pos ht]
              have hrv : noUnsupported (.arr r) = true :=
                (noUnsupportedEntries_mem h (lookup_mem hr)).2
              rw [noUnsupported] at hrv
              by_cases he : (r.filter (requiredElemOk (jsKeys p))).isEmpty
              · rw [if_pos he]
                exact noUnsupportedEntries_filter _ h
              · rw [if_neg he]
                have hr2 : noUnsupportedList (r.filter (requiredElemOk (jsKeys p))) = true :=
                  noUnsupportedList_filter _ hrv
                exact noUnsupportedEntries_map_required (by rw [noUnsupported]; exact hr2) h
            · rw [if_neg ht]; exact h
    | null => exact h
    | bool b => exact h
    | num n => exact h
    | str s => exact h
    | obj o => exact h

mutual

theorem noUnsupported_clean : ∀ j : Json, noUnsupported (cleanJsonSchema j) = true
  | .null => rfl
  | .bool _ => rfl
  | .num _ => rfl
  | .str _ => rfl
  | .arr xs => by
      rw [cleanJsonSchema, noUnsupported]
      exact noUnsupportedList_clean xs
  | .obj es => by
      rw [cleanJsonSchema, noUnsupported]
      exact noUnsupportedEntries_requiredFix (noUnsupportedEntries_clean es)

theorem noUnsupportedList_clean : ∀ xs : List Json,
    noUnsupportedList (cleanJsonSchemaList xs) = true
  | [] => rfl
  | x :: xs => by
      rw [cleanJsonSchemaList, noUnsupportedList]
      simp only [Bool.and_eq_true]
      exact ⟨noUnsupported_clean x, noUnsupportedList_clean xs⟩

theorem noUnsupportedEntries_clean : ∀ es : List (String × Json),
    noUnsupportedEntries (cleanJsonSchemaEntries es) = true
  | [] => rfl
  | (k, v) :: es => by
      rw [cleanJsonSchemaEntries]
      by_cases hk : k ∈ unsupportedFields
      · rw [if_pos hk]
        exact noUnsupportedEntries_clean es
      · rw [if_neg hk, noUnsupportedEntries]
        simp only [Bool.and_eq_true, decide_eq_true_eq]
        refine ⟨⟨hk, ?_⟩, noUnsupportedEntries_clean es⟩
        rw [ite_objLike_clean]
        exact noUnsupported_clean v

end

/-- Claim C1: cleanJsonSchema leaves no rejected keyword as an object key at
any nesting depth of its output, and returns non-object/non-array inputs
unchanged. -/
theorem cleanJsonSchema_no_rejected_keywords (S : Json) :
    noUnsupported (cleanJsonSchema S) = true ∧
    (S.isObjLike = false → cleanJsonSchema S = S) :=
  ⟨noUnsupported_clean S, cleanJsonSchema_of_not_objLike S⟩

/-- Witness for claim C1 at a concrete schema with nested rejected keywords
and at a concrete scalar. -/
theorem cleanJsonSchema_no_rejected_keywords_witness :
    noUnsupported (cleanJsonSchema (.obj [("type", .str "object"),
      ("properties", .obj [("q", .obj [("pattern", .str "^x$")])]),
      ("allOf", .arr [.obj [("minimum", .num 3)]])])) = true ∧
    cleanJsonSchema (.num 7) = .num 7 :=
  ⟨(cleanJsonSchema_no_rejected_keywords _).1,
   (cleanJsonSchema_no_rejected_keywords (.num 7)).2 rfl⟩

/-! Idempotence of the sanitiser. -/

theorem lookup_filter_required_none (es : List (String × Json)) :
    List.lookup "required" (es.filter (fun e => e.1 != "required")) = none := by
  induction es with
  | nil => rfl
  | cons e tl ih =>
      obtain ⟨a, b⟩ := e
      rw [List.filter]
      by_cases ha : a = "required"
      · simp only [ha, bne_self_eq_false]
        exact ih
      · have : (a != "required") = true := by simpa using ha
        rw [this, List.lookup]
        have : ("required" == a) = false := by simpa using (Ne.symm ha)
        rw [this]
        exact ih

theorem lookup_map_required {es : List (String × Json)} {v : Json} (c : Json)
    (h : List.lookup "required" es = some v) :
    List.lookup "required"
      (es.map (fun e => if e.1 = "required" then (e.1, c) else e)) = some c := by
  induction es with
  | nil => simp [List.lookup] at h
  | cons e tl ih =>
      obtain ⟨a, b⟩ := e
      rw [List.lookup] at h
      rw [List.map]
      by_cases ha : a = "required"
      · subst ha
        simp [List.lookup]
      · rw [if_neg ha, List.lookup]
        have hb : ("required" == a) = false := beq_eq_false_iff_ne.mpr (Ne.symm ha)
        rw [hb]
        rw [hb] at h
        exact ih h

theorem lookup_map_other {es : List (String × Json)} {k : String} (c : Json)
    (hk : k ≠ "required") :
    List.lookup k (es.map (fun e => if e.1 = "required" then (e.1, c) else e)) =
    List.lookup k es := by
  induction es with
  | nil => rfl
  | cons e tl ih =>
      obtain ⟨a, b⟩ := e
      rw [List.map]
      by_cases ha : a = "required"
      · rw [if_pos ha, List.lookup, List.lookup]
        have : (k == a) = false := by
          simp only [beq_eq_false_iff_ne, ne_eq]
          exact fun hq => hk (hq.trans ha)
        rw [this]
        exact ih
      · rw [if_neg ha, List.lookup, List.lookup]
        cases k == a
        · exact ih
        · rfl

theorem requiredFix_idem (es : List (String × Json)) :
    requiredFix (requiredFix es) = requiredFix es := by
  cases hr : List.lookup "required" es with
  | none =>
      have h0 : requiredFix es = es := by rw [requiredFix, hr]
      simp only [h0]
  | some vr =>
    cases vr with
    | arr r =>
        cases hp : List.lookup "properties" es with
        | none =>
            have h0 : requiredFix es = es := by rw [requiredFix, hr, hp]
            simp only [h0]
        | some p =>
            by_cases ht : p.truthy
            · by_cases he : (r.filter (requiredElemOk (jsKeys p))).isEmpty
              · have h0 : requiredFix es = es.filter (fun e => e.1 != "required") := by
                  rw [requiredFix, hr, hp]
                  dsimp only
                  rw [if_pos ht, if_pos he]
                rw [h0, requiredFix, lookup_filter_required_none]
              · have h0 : requiredFix es =
                    es.map (fun e => if e.1 = "required" then
                      (e.1, Json.arr (r.filter (requiredElemOk (jsKeys p)))) else e) := by
                  rw [requiredFix, hr, hp]
                  dsimp only
                  rw [if_pos ht, if_neg he]
                rw [h0, requiredFix,
                  lookup_map_required (Json.arr (r.filter (requiredElemOk (jsKeys p)))) hr,
                  lookup_map_other _ (by decide), hp]
                dsimp only
                rw [if_pos ht]
                have hff : List.filter (requiredElemOk (jsKeys p))
                    (List.filter (requiredElemOk (jsKeys p)) r) =
                    List.filter (requiredElemOk (jsKeys p)) r := by
                  rw [List.filter_filter]
                  exact List.filter_congr (fun a _ => Bool.and_self _)
                rw [hff, if_neg he, List.map_map]
                refine List.map_congr_left (fun e _ => ?_)
                by_cases h1 : e.1 = "required"
                · simp [Function.comp, h1]
                · simp [Function.comp, h1]
            · have h0 : requiredFix es = es := by
                rw [requiredFix, hr, hp]
                dsimp only
                rw [if_neg ht]
              simp only [h0]
    | null =>
        have h0 : requiredFix es = es := by rw [requiredFix, hr]
        simp only [h0]
    | bool b =>
        have h0 : requiredFix es = es := by rw [requiredFix, hr]
        simp only [h0]
    | num n =>
        have h0 : requiredFix es = es := by rw [requiredFix, hr]
        simp only [h0]
    | str s =>
        have h0 : requiredFix es = es := by rw [requiredFix, hr]
        simp only [h0]
    | obj o =>
        have h0 : requiredFix es = es := by rw [requiredFix, hr]
        simp only [h0]

/-- An entry is sanitiser-stable: its key survives and its value is a
fixpoint of the sanitiser. -/
def EntryFixed (p : String × Json) : Prop :=
  p.1 ∉ unsupportedFields ∧ cleanJsonSchema p.2 = p.2

theorem cleanJsonSchemaList_eq_self_of {xs : List Json}
    (h : ∀ x ∈ xs, cleanJsonSchema x = x) : cleanJsonSchemaList xs = xs := by
  induction xs with
  | nil => rfl
  | cons x tl ih =>
      rw [cleanJsonSchemaList, h x (List.mem_cons_self _ _),
        ih (fun y hy => h y (List.mem_cons_of_mem _ hy))]

theorem mem_of_cleanJsonSchemaList_eq_self {xs : List Json}
    (h : cleanJsonSchemaList xs = xs) : ∀ x ∈ xs, cleanJsonSchema x = x := by
  induction xs with
  | nil => intro x hx; simp at hx
  | cons y tl ih =>
      rw [cleanJsonSchemaList] at h
      injection h with h1 h2
      intro x hx
      rcases List.mem_cons.mp hx with hx | hx
      · subst hx; exact h1
      · exact ih h2 x hx

theorem cleanJsonSchemaEntries_eq_self_of {es : List (String × Json)}
    (h : ∀ p ∈ es, EntryFixed p) : cleanJsonSchemaEntries es = es := by
  induction es with
  | nil => rfl
  | cons e tl ih =>
      obtain ⟨a, b⟩ := e
      obtain ⟨h1, h2⟩ := h (a, b) (List.mem_cons_self _ _)
      rw [cleanJsonSchemaEntries, if_neg h1, ite_objLike_clean, h2,
        ih (fun p hp => h p (List.mem_cons_of_mem _ hp))]

theorem entryFixed_requiredFix {es : List (String × Json)}
    (h : ∀ p ∈ es, EntryFixed p) : ∀ p ∈ requiredFix es, EntryFixed p := by
  rw [requiredFix]
  cases hr : List.lookup "required" es with
  | none => exact h
  | some vr =>
    cases vr with
    | arr r =>
        cases hp : List.lookup "properties" es with
        | none => exact h
        | some p =>
            dsimp only
            by_cases ht : p.truthy
            · rw [if_pos ht]
              by_cases he : (r.filter (requiredElemOk (jsKeys p))).isEmpty
              · rw [if_pos he]
                exact fun q hq => h q (List.mem_of_mem_filter hq)
              · rw [if_neg he]
                intro q hq
                obtain ⟨e, he2, hfe⟩ := List.mem_map.mp hq
                by_cases h1 : e.1 = "required"
                · rw [if_pos h1] at hfe
                  subst hfe
                  constructor
                  · rw [h1]; decide
                  · have hmem : ("required", Json.arr r) ∈ es := lookup_mem hr
                    have hfix : cleanJsonSchema (Json.arr r) = Json.arr r :=
                      (h _ hmem).2
                    rw [cleanJsonSchema] at hfix
                    injection hfix with hfl
                    have helem := mem_of_cleanJsonSchemaList_eq_self hfl
                    show cleanJsonSchema (Json.arr _) = Json.arr _
                    rw [cleanJsonSchema]
                    rw [cleanJsonSchemaList_eq_self_of
                      (fun x hx => helem x (List.mem_of_mem_filter hx))]
                · rw [if_neg h1] at hfe
                  subst hfe
                  exact h e he2
            · rw [if_neg ht]; exact h
    | null => exact h
    | bool b => exact h
    | num n => exact h
    | str s => exact h
    | obj o => exact h

mutual

theorem cleanJsonSchema_idem_aux : ∀ j : Json,
    cleanJsonSchema (cleanJsonSchema j) = cleanJsonSchema j
  | .null => rfl
  | .bool _ => rfl
  | .num _ => rfl
  | .str _ => rfl
  | .arr xs => by
      rw [cleanJsonSchema, cleanJsonSchema, cleanJsonSchemaList_idem xs]
  | .obj es => by
      rw [cleanJsonSchema, cleanJsonSchema]
      have h1 : ∀ p ∈ requiredFix (cleanJsonSchemaEntries es), EntryFixed p :=
        entryFixed_requiredFix (cleanJsonSchemaEntries_fixed es)
      rw [cleanJsonSchemaEntries_eq_self_of h1, requiredFix_idem]

theorem cleanJsonSchemaList_idem : ∀ xs : List Json,
    cleanJsonSchemaList (cleanJsonSchemaList xs) = cleanJsonSchemaList xs
  | [] => rfl
  | x :: xs => by
      rw [cleanJsonSchemaList, cleanJsonSchemaList, cleanJsonSchema_idem_aux x,
        cleanJsonSchemaList_idem xs]

theorem cleanJsonSchemaEntries_fixed : ∀ es : List (String × Json),
    ∀ p ∈ cleanJsonSchemaEntries es, EntryFixed p
  | [], p, hp => by simp [cleanJsonSchemaEntries] at hp
  | (k, v) :: es, p, hp => by
      rw [cleanJsonSchemaEntries] at hp
      by_cases hk : k ∈ unsupportedFields
      · rw [if_pos hk] at hp
        exact cleanJsonSchemaEntries_fixed es p hp
      · rw [if_neg hk] at hp
        rcases List.mem_cons.mp hp with h1 | h1
        · subst h1
          refine ⟨hk, ?_⟩
          show cleanJsonSchema (if v.isObjLike then cleanJsonSchema v else v) = _
          rw [ite_objLike_clean]
          exact cleanJsonSchema_idem_aux v
        · exact cleanJsonSchemaEntries_fixed es p h1

end

/-- Claim C6: the schema sanitiser is idempotent: for every JSON value S,
cleanJsonSchema (cleanJsonSchema S) = cleanJsonSchema S. -/
theorem cleanJsonSchema_idem (S : Json) :
    cleanJsonSchema (cleanJsonSchema S) = cleanJsonSchema S :=
  cleanJsonSchema_idem_aux S

/-! The request translator claudeToGeminiRequest (src/proxy.js lines 615-1112).
The auxiliary MCP bridge is modelled as uninitialised (mcpIntegration is null
unless initializeMCP is called; the bridge is out of the specified core), so
the tool catalog is exactly the request's native tools. -/

/-- Replace the first entry with the given key, or append one: the semantics
of a JavaScript property assignment obj[key] = v on parsed JSON. -/
def objSet (es : List (String × Json)) (k : String) (v : Json) :
    List (String × Json) :=
  match es with
  | [] => [(k, v)]
  | e :: tl => if e.1 = k then (k, v) :: tl else e :: objSet tl k v

/-- Escape of one character inside a JSON string literal, as produced by
JSON.stringify (other control characters do not occur in the verified runs). -/
def escapeChar (c : Char) : String :=
  if c = '"' then "\\\""
  else if c = '\\' then "\\\\"
  else if c = '\n' then "\\n"
  else if c = '\r' then "\\r"
  else if c = '\t' then "\\t"
  else String.singleton c

/-- Escape of a whole string body for JSON.stringify. -/
def escapeString (s : String) : String :=
  String.join (s.toList.map escapeChar)

mutual

/-- JSON.stringify on parsed JSON values (no spacing, insertion order). -/
def jsonStringify : Json → String
  | .null => "null"
  | .bool true => "true"
  | .bool false => "false"
  | .num n => toString n
  | .str s => "\"" ++ escapeString s ++ "\""
  | .arr xs => "[" ++ String.intercalate "," (jsonStringifyList xs) ++ "]"
  | .obj es => "\x7b" ++ String.intercalate "," (jsonStringifyEntries es) ++ "\x7d"

/-- Elementwise stringification of an array body. -/
def jsonStringifyList : List Json → List String
  | [] => []
  | x :: xs => jsonStringify x :: jsonStringifyList xs

/-- Entry-wise stringification of an object body. -/
def jsonStringifyEntries : List (String × Json) → List String
  | [] => []
  | (k, v) :: es =>
      ("\"" ++ escapeString k ++ "\":" ++ jsonStringify v) :: jsonStringifyEntries es

end

/-- The String() coercion applied to non-string, non-array, non-object
tool_result content. -/
def jsString : Json → String
  | .null => "null"
  | .bool true => "true"
  | .bool false => "false"
  | .num n => toString n
  | .str s => s
  | .arr xs => String.intercalate "," (jsonStringifyList xs)
  | .obj _ => "[object Object]"

/-- A system field: a string, an array of typed text blocks, or some other
JSON value (which yields no system text). -/
inductive SystemField where
  | str (s : String)
  | blocks (bs : List (String × String))
  | other

/-- A content block of a Dialect A message. -/
inductive Block where
  | text (text : String)
  | image (mediaType : String) (data : String)
  | toolUse (id : String) (name : String) (input : Option Json)
  | toolResult (toolUseId : String) (content : Json) (isError : Bool)
  | other

/-- The content of a Dialect A message: a string, an array of blocks, or some
other JSON value (which yields no parts). -/
inductive MsgContent where
  | str (s : String)
  | blocks (bs : List Block)
  | other

/-- A Dialect A message. -/
structure Message where
  role : String
  content : MsgContent

/-- A Dialect A tool declaration. -/
structure Tool where
  name : String
  description : Option String
  input_schema : Option Json

/-- The tool_choice field (only its type matters; the source never reads it). -/
structure ToolChoice where
  ty : String

/-- A Dialect A request, with the fields claudeToGeminiRequest reads. -/
structure ClaudeRequest where
  system : Option SystemField := none
  messages : List Message := []
  max_tokens : Option Int := none
  temperature : Option Int := none
  top_p : Option Int := none
  top_k : Option Int := none
  stop_sequences : Option (List String) := none
  tools : Option (List Tool) := none
  tool_choice : Option ToolChoice := none

/-- A part of a Dialect G content entry. -/
inductive GPart where
  | text (s : String)
  | inlineData (mimeType : String) (data : String)
  | functionCall (name : String) (args : Json)
  | functionResponse (name : String) (response : Json)

/-- Whether a part is a functionResponse (the truthiness test
part.functionResponse of the source). -/
def GPart.isFunctionResponse : GPart → Bool
  | .functionResponse _ _ => true
  | _ => false

/-- A Dialect G content entry (one merged turn). -/
structure GContent where
  role : String
  parts : List GPart

/-- The generationConfig of the outbound request. maxOutputTokens is always
set by the source (4096 when max_tokens is missing or falsy). -/
structure GenerationConfig where
  maxOutputTokens : Int
  temperature : Option Int := none
  topP : Option Int := none
  topK : Option Int := none
  stopSequences : Option (List String) := none

/-- One Gemini safety setting. -/
structure SafetySetting where
  category : String
  threshold : String

/-- The fixed permissive safety vector attached to every outbound request. -/
def safetySettings : List SafetySetting :=
  ["HARM_CATEGORY_HATE_SPEECH", "HARM_CATEGORY_SEXUALLY_EXPLICIT",
   "HARM_CATEGORY_DANGEROUS_CONTENT", "HARM_CATEGORY_HARASSMENT",
   "HARM_CATEGORY_CIVIC_INTEGRITY"].map (fun category => ⟨category, "BLOCK_NONE"⟩)

/-- An outbound function declaration; parameters is present only when the
cleaned schema is truthy with at least one key. -/
structure FunctionDeclaration where
  name : String
  description : String
  parameters : Option Json := none

/-- The single element of the outbound tools array. -/
structure GeminiTools where
  functionDeclarations : List FunctionDeclaration

/-- The function_calling_config of a tool_config. -/
structure FunctionCallingConfig where
  mode : String

/-- The tool_config field of a Dialect G request. -/
structure ToolConfig where
  function_calling_config : FunctionCallingConfig

/-- The Dialect G system_instruction wrapper. -/
structure SystemInstruction where
  parts : List GPart

/-- The outbound Dialect G request as built by claudeToGeminiRequest. -/
structure GeminiRequest where
  contents : List GContent
  safetySettings : List SafetySetting
  generationConfig : GenerationConfig
  system_instruction : Option SystemInstruction := none
  tools : Option (List GeminiTools) := none
  tool_config : Option ToolConfig := none

/-- Role mapping: assistant becomes model, everything else user. -/
def roleOf (m : Message) : String :=
  if m.role = "assistant" then "model" else "user"

/-- The system text: a string passes through; an array keeps the text of its
text-typed blocks, drops empty ones, and joins with blank lines. -/
def systemTextOf : SystemField → String
  | .str s => s
  | .blocks bs =>
      String.intercalate "\n\n"
        ((bs.map (fun b => if b.1 = "text" then b.2 else "")).filter (fun t => t != ""))
  | .other => ""

/-- The first tool_use block of one message whose id matches, if any
(the inner loop of the tool_result name search). -/
def firstToolUseName (tid : String) (m : Message) : Option String :=
  match m.content with
  | .blocks bs =>
      bs.findSome? (fun b =>
        match b with
        | .toolUse id name _ => if id = tid then some name else none
        | _ => none)
  | _ => none

/-- The backward scan of the source (proxy.js lines 685-699): functionName
starts as the raw id, each visited message's first matching tool_use
overwrites it, and the outer loop stops once it differs from the id. -/
def resolveLoop (tid : String) : List Message → String → String
  | [], fn => fn
  | m :: rest, fn =>
      let fn2 := (firstToolUseName tid m).getD fn
      if fn2 ≠ tid then fn2 else resolveLoop tid rest fn2

/-- The function name attached to a translated tool_result. -/
def resolveFunctionName (messages : List Message) (tid : String) : String :=
  resolveLoop tid messages.reverse tid

/-- The functionResponse payload of a translated tool_result: a string or an
array is wrapped as result, an object passes through by reference, any other
value is stringified; is_error appends error and error_message (for object
content the error flag lands in the aliased object before it is stringified). -/
def toolResultResponse (content : Json) (isError : Bool) : Json :=
  let response : List (String × Json) :=
    match content with
    | .str s => [("result", .str s)]
    | .arr xs => [("result", .arr xs)]
    | .obj es => es
    | c => [("result", .str (jsString c))]
  if isError then
    let es1 := objSet response "error" (.bool true)
    let msg : String :=
      match content with
      | .str s => s
      | .obj _ => jsonStringify (.obj es1)
      | c => jsonStringify c
    .obj (objSet es1 "error_message" (.str msg))
  else .obj response

/-- The post-translation state of a tool_result content object: when the
content is a plain object and is_error is set, the source mutates the
caller's object through the response alias (proxy.js lines 708-724). -/
def toolResultContentAfter (content : Json) (isError : Bool) : Json :=
  match content with
  | .obj es => if isError then toolResultResponse (.obj es) true else .obj es
  | c => c

/-- The parts produced from one block (unknown block types yield none). -/
def blockParts (messages : List Message) : Block → List GPart
  | .text t => [.text t]
  | .image mt d => [.inlineData mt d]
  | .toolResult tid content isError =>
      [.functionResponse (resolveFunctionName messages tid)
        (toolResultResponse content isError)]
  | .toolUse _ name input => [.functionCall name (input.getD (.obj []))]
  | .other => []

/-- The parts of one message (string content becomes one text part). -/
def msgParts (messages : List Message) (m : Message) : List GPart :=
  match m.content with
  | .str s => [.text s]
  | .blocks bs => bs.flatMap (blockParts messages)
  | .other => []

/-- The contents loop with its same-role merge, on a reversed accumulator:
a message whose role equals the last entry's role appends its parts there,
otherwise a new entry is pushed. -/
def buildContentsAux (all : List Message) : List Message → List GContent → List GContent
  | [], acc => acc.reverse
  | m :: rest, acc =>
      let role := roleOf m
      let parts := msgParts all m
      match acc with
      | c :: cs =>
          if c.role = role then buildContentsAux all rest (⟨c.role, c.parts ++ parts⟩ :: cs)
          else buildContentsAux all rest (⟨role, parts⟩ :: c :: cs)
      | [] => buildContentsAux all rest [⟨role, parts⟩]

/-- The translated contents of a request. -/
def buildContents (messages : List Message) : List GContent :=
  buildContentsAux messages messages []

/-- maxOutputTokens: a truthy max_tokens below 100 is replaced by 4096, a
falsy or missing one defaults to 4096. -/
def maxOutputTokensOf : Option Int → Int
  | some n => if n ≠ 0 then (if n < 100 then 4096 else n) else 4096
  | none => 4096

/-- One outbound function declaration: a truthy input_schema is sanitised
(else an empty object), and parameters is attached only when the result is
truthy and has at least one key. -/
def functionDeclarationOf (tool : Tool) : FunctionDeclaration :=
  let cleaned : Json :=
    match tool.input_schema with
    | some s => if s.truthy then cleanJsonSchema s else .obj []
    | none => .obj []
  { name := tool.name
    description := tool.description.getD ""
    parameters :=
      if cleaned.truthy && !(jsKeys cleaned).isEmpty then some cleaned else none }

/-- Whether any translated part is a functionResponse (the guard that drops
the tool catalog). -/
def hasFunctionResponse (contents : List GContent) : Bool :=
  contents.any (fun c => c.parts.any GPart.isFunctionResponse)

/-- claudeToGeminiRequest from src/proxy.js (lines 615-1112): messages are
translated and merged, generation parameters copied, the tool catalog is
sanitised and attached unless a functionResponse is present.  tool_choice is
never read, so tool_config is never produced. -/
def claudeToGeminiRequest (req : ClaudeRequest) : GeminiRequest :=
  let contents := buildContents req.messages
  let sysInstr : Option SystemInstruction :=
    match req.system with
    | some sf =>
        let t := systemTextOf sf
        if t != "" then some ⟨[GPart.text t]⟩ else none
    | none => none
  let genConfig : GenerationConfig :=
    { maxOutputTokens := maxOutputTokensOf req.max_tokens
      temperature := req.temperature
      topP := req.top_p
      topK := req.top_k
      stopSequences := req.stop_sequences }
  let allTools : List Tool := req.tools.getD []
  let hasFR := hasFunctionResponse contents
  let tools : Option (List GeminiTools) :=
    if !allTools.isEmpty && !hasFR then
      some [⟨allTools.map functionDeclarationOf⟩]
    else none
  { contents := contents
    safetySettings := safetySettings
    generationConfig := genConfig
    system_instruction := sysInstr
    tools := tools
    tool_config := none }

example :
    buildContents [⟨"user", .str "a"⟩, ⟨"user", .str "b"⟩, ⟨"assistant", .str "c"⟩] =
      [⟨"user", [.text "a", .text "b"]⟩, ⟨"model", [.text "c"]⟩] := rfl

/-! Properties of the contents loop. -/

theorem buildContentsAux_flatMap (all : List Message) :
    ∀ (ms : List Message) (acc : List GContent),
    (buildContentsAux all ms acc).flatMap GContent.parts =
      acc.reverse.flatMap GContent.parts ++ ms.flatMap (msgParts all)
  | [], acc => by
      rw [buildContentsAux.eq_def]
      simp
  | m :: rest, acc => by
      rw [buildContentsAux.eq_def]
      cases acc with
      | nil =>
          dsimp only
          rw [buildContentsAux_flatMap all rest]
          simp
      | cons c cs =>
          dsimp only
          by_cases hrole : c.role = roleOf m
          · rw [if_pos hrole, buildContentsAux_flatMap all rest]
            simp [List.flatMap_append]
          · rw [if_neg hrole, buildContentsAux_flatMap all rest]
            simp [List.flatMap_append]

theorem buildContentsAux_chain (all : List Message) :
    ∀ (ms : List Message) (acc : List GContent),
    List.Chain' (fun a b => a.role ≠ b.role) acc →
    List.Chain' (fun a b => a.role ≠ b.role) (buildContentsAux all ms acc)
  | [], acc, h => by
      rw [buildContentsAux.eq_def]
      exact List.chain'_reverse.mpr (h.imp fun a b hab => Ne.symm hab)
  | m :: rest, acc, h => by
      rw [buildContentsAux.eq_def]
      cases acc with
      | nil =>
          exact buildContentsAux_chain all rest _ (List.chain'_singleton _)
      | cons c cs =>
          dsimp only
          by_cases hrole : c.role = roleOf m
          · rw [if_pos hrole]
            refine buildContentsAux_chain all rest _ ?_
            rcases List.chain'_cons'.mp h with ⟨h1, h2⟩
            exact List.chain'_cons'.mpr ⟨h1, h2⟩
          · rw [if_neg hrole]
            refine buildContentsAux_chain all rest _ ?_
            exact List.chain'_cons.mpr ⟨fun hq => hrole hq.symm, h⟩

theorem claudeToGeminiRequest_contents (req : ClaudeRequest) :
    (claudeToGeminiRequest req).contents = buildContents req.messages := rfl

/-- Claim C4: the translated contents never has two adjacent entries with the
same role, and the translated parts are exactly the parts of the input
messages concatenated in order (merging only groups them). -/
theorem claudeToGeminiRequest_merged_roles (req : ClaudeRequest) :
    List.Chain' (fun a b => a.role ≠ b.role) (claudeToGeminiRequest req).contents ∧
    (claudeToGeminiRequest req).contents.flatMap GContent.parts =
      req.messages.flatMap (msgParts req.messages) := by
  constructor
  · exact buildContentsAux_chain _ _ _ List.chain'_nil
  · rw [claudeToGeminiRequest_contents, buildContents, buildContentsAux_flatMap]
    simp

/-- Claim C3: when any translated part is a functionResponse, the outbound
request carries no tool catalog. -/
theorem claudeToGeminiRequest_drops_tools_on_functionResponse (req : ClaudeRequest)
    (h : ∃ c ∈ (claudeToGeminiRequest req).contents,
      ∃ p ∈ c.parts, p.isFunctionResponse = true) :
    (claudeToGeminiRequest req).tools = none := by
  have hfr : hasFunctionResponse (buildContents req.messages) = true := by
    rw [hasFunctionResponse, List.any_eq_true]
    obtain ⟨c, hc, p, hp, hfp⟩ := h
    exact ⟨c, hc, List.any_eq_true.mpr ⟨p, hp, hfp⟩⟩
  rw [buildContents] at hfr
  simp [claudeToGeminiRequest, buildContents, hfr]

/-- Witness request for claim C3: a tool_result turn together with a declared
tool. -/
def toolResultTurnRequest : ClaudeRequest :=
  { messages := [⟨"user", .blocks [.toolResult "id1" (.str "ok") false]⟩]
    tools := some [⟨"get_weather", some "d", none⟩] }

/-- Witness for claim C3: the concrete tool_result turn loses its tool
catalog. -/
theorem claudeToGeminiRequest_drops_tools_on_functionResponse_witness :
    (claudeToGeminiRequest toolResultTurnRequest).tools = none :=
  claudeToGeminiRequest_drops_tools_on_functionResponse _ (by decide)

/-! Resolution of the function name of a tool_result. -/

/-- The first matching tool_use of one message whose name differs from the
raw id (a match named like the id does not stop the backward scan). -/
def informativeMatch (tid : String) (m : Message) : Option String :=
  match firstToolUseName tid m with
  | some n => if n ≠ tid then some n else none
  | none => none

/-- Characterisation of the implemented resolution: scanning all messages
from the last to the first, the name of the first informative match wins;
otherwise the raw id is used. -/
def specResolveName (messages : List Message) (tid : String) : String :=
  (messages.reverse.findSome? (informativeMatch tid)).getD tid

theorem resolveLoop_spec (tid : String) :
    ∀ ms : List Message,
    resolveLoop tid ms tid = (ms.findSome? (informativeMatch tid)).getD tid
  | [] => rfl
  | m :: rest => by
      rw [resolveLoop, List.findSome?_cons]
      cases hf : firstToolUseName tid m with
      | none =>
          rw [informativeMatch, hf]
          dsimp only [Option.getD]
          rw [if_neg (fun hq => hq rfl)]
          exact resolveLoop_spec tid rest
      | some n =>
          rw [informativeMatch, hf]
          dsimp only [Option.getD]
          by_cases hn : n ≠ tid
          · rw [if_pos hn, if_pos hn]
          · rw [if_neg hn, if_neg hn]
            push_neg at hn
            subst hn
            exact resolveLoop_spec n rest

theorem resolveFunctionName_eq_spec (messages : List Message) (tid : String) :
    resolveFunctionName messages tid = specResolveName messages tid :=
  resolveLoop_spec tid messages.reverse

/-- Claim C2 (amended): the translated functionResponse of a tool_result with
id T carries the name resolved by scanning ALL messages backward (a tool_use
in a later message also matches; matches named exactly T do not stop the
scan); when no message contains a matching tool_use, the raw id T is used. -/
theorem claudeToGeminiRequest_toolResult_name (req : ClaudeRequest)
    (m : Message) (bs : List Block) (tid : String) (content : Json) (isError : Bool)
    (hm : m ∈ req.messages) (hc : m.content = .blocks bs)
    (hb : Block.toolResult tid content isError ∈ bs) :
    GPart.functionResponse (specResolveName req.messages tid)
        (toolResultResponse content isError)
      ∈ (claudeToGeminiRequest req).contents.flatMap GContent.parts ∧
    ((∀ m2 ∈ req.messages, firstToolUseName tid m2 = none) →
      specResolveName req.messages tid = tid) := by
  constructor
  · rw [(claudeToGeminiRequest_merged_roles req).2]
    refine List.mem_flatMap.mpr ⟨m, hm, ?_⟩
    rw [msgParts, hc]
    refine List.mem_flatMap.mpr ⟨Block.toolResult tid content isError, hb, ?_⟩
    rw [blockParts, resolveFunctionName_eq_spec]
    exact List.mem_singleton.mpr rfl
  · intro hnone
    rw [specResolveName, List.findSome?_eq_none_iff.mpr, Option.getD]
    intro m2 hm2
    rw [informativeMatch, hnone m2 (List.mem_reverse.mp hm2)]

/-- Counterexample input for claim C2 as frozen: the only tool_use with the
matching id sits in a LATER message than the tool_result. -/
def laterToolUseRequest : ClaudeRequest :=
  { messages := [⟨"user", .blocks [.toolResult "X" (.str "r") false]⟩,
                 ⟨"assistant", .blocks [.toolUse "X" "f" none]⟩] }

/-- Counterexample for claim C2 as frozen: no tool_use precedes the
tool_result, so the claim demands the raw id X as the functionResponse name,
but the code resolves the name f of the tool_use found in the LATER message
(the backward scan starts at the end of the whole list). -/
theorem claudeToGeminiRequest_toolResult_name_counterexample :
    (claudeToGeminiRequest laterToolUseRequest).contents.flatMap GContent.parts =
      [.functionResponse "f" (.obj [("result", .str "r")]),
       .functionCall "f" (.obj [])] ∧
    "f" ≠ "X" := ⟨rfl, by decide⟩

/-- Witness request for claim C2: a proper earlier tool_use then its result. -/
def toolUseThenResultRequest : ClaudeRequest :=
  { messages := [⟨"assistant", .blocks [.toolUse "tu1" "get_weather" none]⟩,
                 ⟨"user", .blocks [.toolResult "tu1" (.str "sunny") false]⟩] }

/-- Witness request for the no-match fallback of claim C2. -/
def orphanToolResultRequest : ClaudeRequest :=
  { messages := [⟨"user", .blocks [.toolResult "zz" (.str "e") true]⟩] }

/-- Witness for claim C2 at the two concrete requests. -/
theorem claudeToGeminiRequest_toolResult_name_witness :
    GPart.functionResponse (specResolveName toolUseThenResultRequest.messages "tu1")
        (toolResultResponse (.str "sunny") false)
      ∈ (claudeToGeminiRequest toolUseThenResultRequest).contents.flatMap GContent.parts ∧
    specResolveName orphanToolResultRequest.messages "zz" = "zz" :=
  ⟨(claudeToGeminiRequest_toolResult_name toolUseThenResultRequest
      ⟨"user", .blocks [.toolResult "tu1" (.str "sunny") false]⟩
      [.toolResult "tu1" (.str "sunny") false] "tu1" (.str "sunny") false
      (List.mem_cons_of_mem _ (List.mem_cons_self _ _)) rfl
      (List.mem_cons_self _ _)).1,
   (claudeToGeminiRequest_toolResult_name orphanToolResultRequest
      ⟨"user", .blocks [.toolResult "zz" (.str "e") true]⟩
      [.toolResult "zz" (.str "e") true] "zz" (.str "e") true
      (List.mem_cons_self _ _) rfl (List.mem_cons_self _ _)).2 (by decide)⟩

example : specResolveName toolUseThenResultRequest.messages "tu1" = "get_weather" := rfl

/-! Claim C7: mutation of the input through the tool_result response alias. -/

/-- Failing input for claim C7: a tool_result whose content is a plain object
and whose is_error flag is set. -/
def errorToolResultRequest : ClaudeRequest :=
  { messages := [⟨"user",
      .blocks [.toolResult "t1" (.obj [("ok", .bool false)]) true]⟩] }

/-- Claim C7 fails on the code: translating errorToolResultRequest produces a
functionResponse whose response object is, in the source, the very content
object of the input block (aliased), and the error/error_message assignments
leave that object different from the original content: the input request is
mutated. -/
theorem claudeToGeminiRequest_mutates_errored_toolResult :
    (claudeToGeminiRequest errorToolResultRequest).contents =
      [⟨"user", [.functionResponse "t1"
        (.obj [("ok", .bool false), ("error", .bool true),
               ("error_message", .str "\x7b\"ok\":false,\"error\":true\x7d")])]⟩] ∧
    toolResultContentAfter (.obj [("ok", .bool false)]) true ≠
      .obj [("ok", .bool false)] := by
  constructor
  · rfl
  · intro h
    rw [toolResultContentAfter] at h
    simp [toolResultResponse, objSet] at h

/-! Claim C8: tool_choice is never translated. -/

/-- Failing input for claim C8: an explicit tool_choice of type auto together
with a declared tool. -/
def toolChoiceAutoRequest : ClaudeRequest :=
  { messages := [⟨"user", .str "hi"⟩]
    tools := some [⟨"t", none, none⟩]
    tool_choice := some ⟨"auto"⟩ }

/-- Claim C8 fails on the code: claudeToGeminiRequest never reads tool_choice
and never emits a tool_config, at the concrete request and universally. -/
theorem claudeToGeminiRequest_no_toolConfig :
    (claudeToGeminiRequest toolChoiceAutoRequest).tool_config = none ∧
    ∀ r : ClaudeRequest, (claudeToGeminiRequest r).tool_config = none :=
  ⟨rfl, fun _ => rfl⟩

/-! Claim C9: the max_tokens floor. -/

/-- Claim C9: with max_tokens present, the outbound maxOutputTokens is
max_tokens when it is at least 100 and 4096 otherwise. -/
theorem claudeToGeminiRequest_maxTokens (req : ClaudeRequest) (n : Int)
    (h : req.max_tokens = some n) :
    (claudeToGeminiRequest req).generationConfig.maxOutputTokens =
      if n < 100 then 4096 else n := by
  have hg : (claudeToGeminiRequest req).generationConfig.maxOutputTokens =
      maxOutputTokensOf req.max_tokens := rfl
  rw [hg, h, maxOutputTokensOf]
  by_cases h0 : n = 0
  · subst h0
    norm_num
  · rw [if_pos h0]

/-- Witness for claim C9 at max_tokens 1 (clamped) and 200 (kept). -/
theorem claudeToGeminiRequest_maxTokens_witness :
    (claudeToGeminiRequest { messages := [], max_tokens := some 1 }).generationConfig.maxOutputTokens =
      (if (1 : Int) < 100 then 4096 else 1) ∧
    (claudeToGeminiRequest { messages := [], max_tokens := some 200 }).generationConfig.maxOutputTokens =
      (if (200 : Int) < 100 then 4096 else 200) :=
  ⟨claudeToGeminiRequest_maxTokens _ 1 rfl, claudeToGeminiRequest_maxTokens _ 200 rfl⟩

/-! The response translators (src/proxy.js lines 1158-1201 synchronous,
1230-1371 streaming).  The random toolu_ identifiers of tool_use blocks are
not modelled (no verified property depends on them); citations is the
constant null of the source and is left out of the text block. -/

/-- A functionCall part of an upstream reply. -/
structure GFunctionCall where
  name : String
  args : Option Json := none

/-- One part of an upstream candidate (absent fields are undefined). -/
structure GRespPart where
  text : Option String := none
  functionCall : Option GFunctionCall := none

/-- The content of an upstream candidate. -/
structure GRespContent where
  parts : List GRespPart

/-- The usageMetadata of an upstream reply. -/
structure UsageMetadata where
  promptTokenCount : Option Int := none
  candidatesTokenCount : Option Int := none

/-- One upstream candidate. -/
structure GCandidate where
  content : Option GRespContent := none
  finishReason : Option String := none

/-- An upstream reply or one upstream stream chunk (both carry candidates
and optional usageMetadata). -/
structure GeminiResponse where
  candidates : List GCandidate := []
  usageMetadata : Option UsageMetadata := none

/-- mapFinishReason from src/proxy.js: STOP, MAX_TOKENS, SAFETY, RECITATION
have explicit images, everything else (missing included) is end_turn. -/
def mapFinishReason : Option String → String
  | some "STOP" => "end_turn"
  | some "MAX_TOKENS" => "max_tokens"
  | some "SAFETY" => "stop_sequence"
  | some "RECITATION" => "stop_sequence"
  | _ => "end_turn"

/-- A content block of the Dialect A response. -/
inductive ClaudeBlock where
  | text (text : String)
  | toolUse (name : String) (input : Json)

/-- The usage object of the Dialect A response. -/
structure ClaudeUsage where
  input_tokens : Int
  output_tokens : Int

/-- The Dialect A response message. -/
structure ClaudeMessage where
  id : String
  ty : String
  role : String
  content : List ClaudeBlock
  model : String
  stop_reason : String
  stop_sequence : Option String
  usage : ClaudeUsage

/-- The blocks produced from one upstream part: a truthy text wins, else a
functionCall becomes a tool_use, else nothing. -/
def respPartBlocks (p : GRespPart) : List ClaudeBlock :=
  if p.text.getD "" != "" then [.text (p.text.getD "")]
  else
    match p.functionCall with
    | some fc => [.toolUse fc.name (fc.args.getD (.obj []))]
    | none => []

/-- geminiToClaudeResponse from src/proxy.js: the first candidate's parts
become blocks; a missing candidate throws. -/
def geminiToClaudeResponse (resp : GeminiResponse) (model messageId : String) :
    Except String ClaudeMessage :=
  match resp.candidates.head? with
  | none => .error "No candidates in Gemini response"
  | some candidate =>
      let parts := (candidate.content.map GRespContent.parts).getD []
      .ok { id := messageId
            ty := "message"
            role := "assistant"
            content := parts.flatMap respPartBlocks
            model := model
            stop_reason := mapFinishReason candidate.finishReason
            stop_sequence := none
            usage :=
              ⟨(resp.usageMetadata.bind UsageMetadata.promptTokenCount).getD 0,
               (resp.usageMetadata.bind UsageMetadata.candidatesTokenCount).getD 0⟩ }

/-- A delta payload of a content_block_delta event. -/
inductive SSEDelta where
  | textDelta (text : String)
  | inputJsonDelta (pjson : String)

/-- The content_block payload of a content_block_start event. -/
inductive ContentBlockInit where
  | text
  | toolUse (name : String)

/-- One Dialect A stream event, with the payload fields the properties
need. -/
inductive SSEEvent where
  | messageStart (id : String) (model : String)
  | contentBlockStart (index : Nat) (block : ContentBlockInit)
  | contentBlockDelta (index : Nat) (delta : SSEDelta)
  | contentBlockStop (index : Nat)
  | messageDelta (stop_reason : String) (output_tokens : Int)
  | messageStop

/-- The mutable state of a ClaudeStreamConverter: the count of chunks with a
candidate seen so far and the retained last chunk. -/
structure ConverterState where
  index : Nat := 0
  lastData : Option GeminiResponse := none

/-- The events emitted for one part: a truthy text yields its delta (plus the
index-0 text block opener on the very first part of the very first chunk);
otherwise a functionCall yields its three tool_use events. -/
def partEvents (chunkIndex partIndex : Nat) (p : GRespPart) : List SSEEvent :=
  if p.text.getD "" != "" then
    (if chunkIndex = 0 ∧ partIndex = 0 then
      [.contentBlockStart partIndex .text] else []) ++
    [.contentBlockDelta partIndex (.textDelta (p.text.getD ""))]
  else
    match p.functionCall with
    | some fc =>
        [.contentBlockStart partIndex (.toolUse fc.name),
         .contentBlockDelta partIndex
           (.inputJsonDelta (jsonStringify (fc.args.getD (.obj [])))),
         .contentBlockStop partIndex]
    | none => []

/-- ClaudeStreamConverter.convertChunk from src/proxy.js (lines 1238-1335):
a chunk without a candidate yields nothing and leaves the state alone; the
first effective chunk opens the message; each part is processed by index. -/
def convertChunk (model messageId : String) (st : ConverterState)
    (geminiData : GeminiResponse) : List SSEEvent × ConverterState :=
  match geminiData.candidates.head? with
  | none => ([], st)
  | some candidate =>
      let startEvents : List SSEEvent :=
        if st.index = 0 then [.messageStart messageId model] else []
      let parts := (candidate.content.map GRespContent.parts).getD []
      (startEvents ++ parts.enum.flatMap (fun ip => partEvents st.index ip.1 ip.2),
       ⟨st.index + 1, some geminiData⟩)

/-- ClaudeStreamConverter.finalize: closes block 0, reports the stop reason
and output token count of the retained last chunk, and ends the message. -/
def finalize (st : ConverterState) : List SSEEvent :=
  match st.lastData with
  | none => []
  | some d =>
      [.contentBlockStop 0,
       .messageDelta
         (mapFinishReason (d.candidates.head?.bind GCandidate.finishReason))
         ((d.usageMetadata.bind UsageMetadata.candidatesTokenCount).getD 0),
       .messageStop]

/-- Folding convertChunk over a chunk list. -/
def convertAll (model messageId : String) :
    ConverterState → List GeminiResponse → List SSEEvent × ConverterState
  | st, [] => ([], st)
  | st, c :: rest =>
      let r1 := convertChunk model messageId st c
      let r2 := convertAll model messageId r1.2 rest
      (r1.1 ++ r2.1, r2.2)

/-- The full event stream of a converter run over the chunks, finalize
included. -/
def streamEvents (model messageId : String) (chunks : List GeminiResponse) :
    List SSEEvent :=
  let r := convertAll model messageId {} chunks
  r.1 ++ finalize r.2

/-- The text carried by a text_delta event (anything else carries none). -/
def eventText : SSEEvent → String
  | .contentBlockDelta _ (.textDelta t) => t
  | _ => ""

/-- Concatenation of a list of strings, in order. -/
def strConcat : List String → String
  | [] => ""
  | s :: rest => s ++ strConcat rest

/-- Concatenation of the text_delta texts of an event sequence, in order. -/
def deltaText (evs : List SSEEvent) : String :=
  strConcat (evs.map eventText)

/-- The text carried by a response block. -/
def blockText : ClaudeBlock → String
  | .text t => t
  | _ => ""

/-- Concatenation of the text of the text blocks of a response, in order. -/
def contentText (blocks : List ClaudeBlock) : String :=
  strConcat (blocks.map blockText)

/-- The parts of one chunk's first candidate. -/
def chunkParts (c : GeminiResponse) : List GRespPart :=
  match c.candidates.head? with
  | some cand => (cand.content.map GRespContent.parts).getD []
  | none => []

/-- Modelled from the spec (testable property 6, same upstream data): the
non-streaming reply equivalent to a chunk sequence: one candidate carrying
every part of every chunk's first candidate in order, with the last chunk's
finish reason and usage. -/
def aggregateChunks (chunks : List GeminiResponse) : GeminiResponse :=
  { candidates :=
      [{ content := some ⟨chunks.flatMap chunkParts⟩
         finishReason :=
           chunks.getLast?.bind (fun c => c.candidates.head?.bind GCandidate.finishReason) }]
    usageMetadata := chunks.getLast?.bind GeminiResponse.usageMetadata }

/-- The text contribution of one chunk: its first candidate's truthy part
texts in order. -/
def chunkText (c : GeminiResponse) : String :=
  strConcat ((chunkParts c).map (fun p => p.text.getD ""))

theorem strConcat_append (a b : List String) :
    strConcat (a ++ b) = strConcat a ++ strConcat b := by
  induction a with
  | nil =>
      show strConcat b = "" ++ strConcat b
      rw [String.empty_append]
  | cons s rest ih =>
      show s ++ strConcat (rest ++ b) = (s ++ strConcat rest) ++ strConcat b
      rw [ih, String.append_assoc]

theorem deltaText_append (a b : List SSEEvent) :
    deltaText (a ++ b) = deltaText a ++ deltaText b := by
  rw [deltaText, List.map_append, strConcat_append]
  rfl

theorem contentText_append (a b : List ClaudeBlock) :
    contentText (a ++ b) = contentText a ++ contentText b := by
  rw [contentText, List.map_append, strConcat_append]
  rfl

theorem deltaText_partEvents (ci pi : Nat) (p : GRespPart) :
    deltaText (partEvents ci pi p) = p.text.getD "" := by
  rw [partEvents]
  by_cases ht : p.text.getD "" != ""
  · rw [if_pos ht]
    by_cases hi : ci = 0 ∧ pi = 0
    · rw [if_pos hi]
      show "" ++ (p.text.getD "" ++ "") = p.text.getD ""
      rw [String.empty_append, String.append_empty]
    · rw [if_neg hi]
      show p.text.getD "" ++ "" = p.text.getD ""
      rw [String.append_empty]
  · rw [if_neg ht]
    have h0 : p.text.getD "" = "" := by simpa using ht
    rw [h0]
    cases p.functionCall with
    | none => rfl
    | some fc => rfl

theorem deltaText_enumFrom (ci : Nat) (parts : List GRespPart) :
    ∀ n : Nat,
    deltaText ((List.enumFrom n parts).flatMap (fun ip => partEvents ci ip.1 ip.2)) =
      strConcat (parts.map (fun p => p.text.getD "")) := by
  induction parts with
  | nil => intro n; rfl
  | cons p rest ih =>
      intro n
      rw [List.enumFrom, List.flatMap_cons, deltaText_append, deltaText_partEvents, ih]
      rfl

theorem deltaText_convertChunk (model messageId : String) (st : ConverterState)
    (c : GeminiResponse) :
    deltaText ((convertChunk model messageId st c).1) = chunkText c := by
  rw [convertChunk, chunkText, chunkParts]
  cases hc : c.candidates.head? with
  | none => rfl
  | some cand =>
      dsimp only
      rw [deltaText_append]
      have h1 : deltaText (if st.index = 0 then [.messageStart messageId model] else []) = "" := by
        by_cases h : st.index = 0
        · rw [if_pos h]; rfl
        · rw [if_neg h]; rfl
      have h2 : ((cand.content.map GRespContent.parts).getD []).enum =
          List.enumFrom 0 ((cand.content.map GRespContent.parts).getD []) := rfl
      rw [h1, h2, deltaText_enumFrom, String.empty_append]

theorem deltaText_finalize (st : ConverterState) : deltaText (finalize st) = "" := by
  rw [finalize]
  cases st.lastData with
  | none => rfl
  | some d => rfl

theorem deltaText_convertAll (model messageId : String) :
    ∀ (chunks : List GeminiResponse) (st : ConverterState),
    deltaText ((convertAll model messageId st chunks).1) =
      strConcat (chunks.map chunkText)
  | [], st => rfl
  | c :: rest, st => by
      rw [convertAll]
      dsimp only
      rw [deltaText_append, deltaText_convertChunk,
        deltaText_convertAll model messageId rest]
      rfl

theorem deltaText_streamEvents (model messageId : String)
    (chunks : List GeminiResponse) :
    deltaText (streamEvents model messageId chunks) =
      strConcat (chunks.map chunkText) := by
  rw [streamEvents]
  rw [deltaText_append, deltaText_finalize, String.append_empty,
    deltaText_convertAll]

theorem contentText_respPartBlocks (p : GRespPart) :
    contentText (respPartBlocks p) = p.text.getD "" := by
  rw [respPartBlocks]
  by_cases ht : p.text.getD "" != ""
  · rw [if_pos ht]
    show p.text.getD "" ++ "" = p.text.getD ""
    rw [String.append_empty]
  · rw [if_neg ht]
    have h0 : p.text.getD "" = "" := by simpa using ht
    rw [h0]
    cases p.functionCall with
    | none => rfl
    | some fc => rfl

theorem contentText_flatMap_parts (parts : List GRespPart) :
    contentText (parts.flatMap respPartBlocks) =
      strConcat (parts.map (fun p => p.text.getD "")) := by
  induction parts with
  | nil => rfl
  | cons p rest ih =>
      rw [List.flatMap_cons, contentText_append, contentText_respPartBlocks, ih]
      rfl

theorem contentText_flatMap_chunks (chunks : List GeminiResponse) :
    contentText ((chunks.flatMap chunkParts).flatMap respPartBlocks) =
      strConcat (chunks.map chunkText) := by
  induction chunks with
  | nil => rfl
  | cons c rest ih =>
      rw [List.flatMap_cons, List.flatMap_append, contentText_append, ih,
        contentText_flatMap_parts]
      rfl

/-- Claim C5: across any upstream chunk sequence, the concatenated text of
the content_block_delta text_delta events of the streaming converter equals
the concatenated text of the text blocks of the synchronous converter applied
to the aggregated upstream data. -/
theorem streaming_matches_sync (model messageId : String)
    (chunks : List GeminiResponse) :
    ∃ msg, geminiToClaudeResponse (aggregateChunks chunks) model messageId =
        Except.ok msg ∧
      contentText msg.content = deltaText (streamEvents model messageId chunks) := by
  refine ⟨_, rfl, ?_⟩
  show contentText ((chunks.flatMap chunkParts).flatMap respPartBlocks) = _
  rw [contentText_flatMap_chunks, deltaText_streamEvents]

example :
    deltaText (streamEvents "m" "id"
      [⟨[⟨some ⟨[⟨some "Hel", none⟩]⟩, none⟩], none⟩,
       ⟨[⟨some ⟨[⟨some "lo", none⟩]⟩, none⟩], none⟩,
       ⟨[⟨some ⟨[⟨some " world", none⟩]⟩, some "STOP"⟩], none⟩]) = "Hello world" := rfl

example :
    streamEvents "m" "id"
      [⟨[⟨some ⟨[⟨some "Hel", none⟩]⟩, none⟩], none⟩,
       ⟨[⟨some ⟨[⟨some " wd", none⟩]⟩, some "STOP"⟩], some ⟨some 3, some 7⟩⟩] =
      [.messageStart "id" "m", .contentBlockStart 0 .text,
       .contentBlockDelta 0 (.textDelta "Hel"),
       .contentBlockDelta 0 (.textDelta " wd"),
       .contentBlockStop 0, .messageDelta "end_turn" 7, .messageStop] := rfl

/-! GeminiStreamParser (src/proxy.js lines 1204-1227).  The rolling buffer is
a character list; the regex ^data: (.*?)(\n\n|\r\r|\r\n\r\n) with m and g
flags is embedded directly: a match starts at the beginning of a line, the
capture is the maximal newline-free run after the data: marker, and exec
scans from the regex's persistent lastIndex, which survives the buffer
truncation performed on each successful parse.  JSON.parse is a parameter
(dec); the concrete decDigits below covers the integer payloads used. -/

/-- The characters ending a line for the multiline anchor and excluded from
the dot (of those occurring in SSE traffic). -/
def isLineTerm (c : Char) : Bool := c = '\n' || c = '\r'

/-- Whether position p starts a line of buf (start of input or preceded by a
line terminator), as the multiline ^ anchor tests. -/
def lineStart (buf : List Char) (p : Nat) : Bool :=
  decide (p = 0) || (buf[p-1]?.any isLineTerm)

/-- Whether pat occurs in buf starting at position p. -/
def matchesAt (buf : List Char) (p : Nat) (pat : List Char) : Bool :=
  (buf.drop p).take pat.length == pat

/-- The terminator alternation \n\n | \r\r | \r\n\r\n tried left to right at
position r, returning the matched length. -/
def termLenAt (buf : List Char) (r : Nat) : Option Nat :=
  if matchesAt buf r ['\n', '\n'] then some 2
  else if matchesAt buf r ['\r', '\r'] then some 2
  else if matchesAt buf r ['\r', '\n', '\r', '\n'] then some 4
  else none

/-- A match attempt of the frame regex at position p: on success, the end of
the whole match and the captured payload. -/
def checkAt (buf : List Char) (p : Nat) : Option (Nat × List Char) :=
  if lineStart buf p && matchesAt buf p "data: ".toList then
    let body := (buf.drop (p + 6)).takeWhile (fun c => !isLineTerm c)
    match termLenAt buf (p + 6 + body.length) with
    | some tl => some (p + 6 + body.length + tl, body)
    | none => none
  else none

/-- regex.exec: the first match starting at or after lastIndex. -/
def findMatchFrom (buf : List Char) (lastIndex : Nat) :
    Option (Nat × Nat × List Char) :=
  (List.range' lastIndex (buf.length + 1 - lastIndex)).findSome?
    (fun p => (checkAt buf p).map (fun rb => (p, rb.1, rb.2)))

/-- The while loop of parse: each successful exec advances lastIndex to the
match end (coordinates of the buffer it matched in) and, when the payload
parses, truncates the buffer by the MATCH LENGTH FROM THE FRONT
(this.buffer.substring(match[0].length)) and emits the event; a payload that
fails to parse is skipped.  The fuel only bounds the iteration count and is
chosen large enough never to run out. -/
def parseLoop (dec : List Char → Option Json) :
    Nat → List Char → Nat → List Json → List Json × List Char
  | 0, buf, _, events => (events, buf)
  | fuel + 1, buf, lastIndex, events =>
      match findMatchFrom buf lastIndex with
      | none => (events, buf)
      | some (p, e, body) =>
          match dec body with
          | some j => parseLoop dec fuel (buf.drop (e - p)) e (events ++ [j])
          | none => parseLoop dec fuel buf e events

/-- GeminiStreamParser.parse: append the chunk to the rolling buffer and run
the exec loop with a fresh regex (lastIndex 0). -/
def GeminiStreamParser.parse (dec : List Char → Option Json)
    (buffer chunk : List Char) : List Json × List Char :=
  let b := buffer ++ chunk
  parseLoop dec (b.length + 1) b 0 []

/-- Feeding a chunk sequence to one parser instance, concatenating the
returned event lists. -/
def parseAll (dec : List Char → Option Json) (chunks : List (List Char)) :
    List Json × List Char :=
  chunks.foldl
    (fun acc chunk =>
      let r := GeminiStreamParser.parse dec acc.2 chunk
      (acc.1 ++ r.1, r.2))
    ([], [])

/-- Stand-in for JSON.parse restricted to nonnegative integer numerals, the
payloads exercised by the concrete runs below. -/
def decDigits (cs : List Char) : Option Json :=
  if cs ≠ [] ∧ cs.all Char.isDigit then
    some (.num (Int.ofNat (cs.foldl (fun acc c => acc * 10 + (c.toNat - 48)) 0)))
  else none

/-- Claim C10 fails on the code: feeding the two well-formed frames
data: 1 and data: 2 in ONE chunk yields only the event 1 (the second frame
stays in the buffer because exec resumes at a stale lastIndex after the
buffer truncation), while feeding the same bytes split at the frame boundary
yields 1 then 2. -/
theorem gsParser_chunk_boundary_dependent :
    (parseAll decDigits ["data: 1\n\ndata: 2\n\n".toList]).1 = [.num 1] ∧
    (parseAll decDigits ["data: 1\n\n".toList, "data: 2\n\n".toList]).1 =
      [.num 1, .num 2] ∧
    ([Json.num 1] : List Json) ≠ [Json.num 1, Json.num 2] := by
  refine ⟨rfl, rfl, ?_⟩
  intro h
  simp at h

example :
    parseAll decDigits ["data: 12".toList, "3\n\n".toList] =
      ([.num 123], []) := rfl

end Proxy
